import Mathlib

/-!
Shallow embedding of the `informative-validator` validation core.

The repository holds two revisions of the validating directive:
* the newer one, embedded at the end of `src/informative-validator-rules.ts`
  (namespace `RulesV` below), and
* the older one in `src/informative-validator.directive.ts`
  (namespace `DirectiveV` below).

Control values are modelled as `Option String` (the rules call `toString`
and `match` on them, and compare against `null`), a rejected async latent
operation as `Except.error`, and `Promise.all` as the `promiseAll`
function below.
-/

namespace InformativeValidator

/-- The slice of Angular `AbstractControl` the source reads: the current
value (possibly null), the `untouched` flag, the `status` string (compared
against the literal string DISABLED), and the structured error flag set via
`setErrors` (`some true` models `\x7b "customErrors": true \x7d`, `none`
models a cleared error state). -/
structure AbstractControl where
  value : Option String
  untouched : Bool
  status : String
  errors : Option Bool
deriving DecidableEq, Repr

/-- `SynchronousValidationRule` from `informative-validator-rules.ts`:
description, feedback (either may be null in practice, the newer directive
guards both against null) and an immediate boolean predicate. -/
structure SynchronousValidationRule where
  getDescription : Option String
  getFeedback : Option String
  isValid : AbstractControl → Bool

/-- `AsynchronousValidationRule`: as above but the predicate is a latent
operation that either resolves to a boolean (`Except.ok`) or rejects
(`Except.error`). -/
structure AsynchronousValidationRule where
  getDescription : Option String
  getFeedback : Option String
  isValid : AbstractControl → Except Unit Bool

/-- `SynchronousValidationRuleSet` interface: a named ordered rule list. -/
structure SynchronousValidationRuleSet where
  getRuleSet : List SynchronousValidationRule

/-- `AsynchronousValidationRuleSet` interface. -/
structure AsynchronousValidationRuleSet where
  getRuleSet : List AsynchronousValidationRule

/-- `RequiredValidationRule` from `informative-validator-rules.ts`:
invalid on a null value, otherwise valid iff the string form is
non-empty. -/
def RequiredValidationRule : SynchronousValidationRule where
  getDescription := some "This field is required"
  getFeedback := some "You have not provided this item"
  isValid := fun control =>
    match control.value with
    | none => false
    | some s => s.length > 0

/-- Character class `[A-Z0-9._%+-]` of the email regex under the `/i`
flag. -/
def isLocalChar (c : Char) : Bool :=
  c.isAlpha || c.isDigit || c == '.' || c == '_' || c == '%' || c == '+' || c == '-'

/-- Character class `[A-Z0-9.-]` of the email regex under the `/i` flag. -/
def isDomainChar (c : Char) : Bool :=
  c.isAlpha || c.isDigit || c == '.' || c == '-'

/-- Embedding of the regex test
`value.match(/^[A-Z0-9._%+-]+@[A-Z0-9.-]+\.[A-Z]\x7b2,\x7d$/i) != null`.
Since no character class of the pattern contains `@`, a match forces the
local part to stop at the first `@`; since the trailing `[A-Z]\x7b2,\x7d`
run contains no dot, the mandatory literal dot of a match is the last dot
after the `@`.  The function decides existence of a match accordingly:
a non-empty `[A-Z0-9._%+-]` run, one `@`, a non-empty `[A-Z0-9.-]` run,
a dot, and at least two letters to the end of the string. -/
def matchEmailRegex (s : String) : Bool :=
  let cs := s.toList
  let l := cs.takeWhile (fun c => c != '@')
  match cs.drop l.length with
  | [] => false
  | _ :: d =>
    let tld := (d.reverse.takeWhile (fun c => c != '.')).reverse
    let b := d.take (d.length - tld.length - 1)
    decide (l ≠ []) && l.all isLocalChar &&
    decide (tld.length < d.length) &&
    decide (b ≠ []) && b.all isDomainChar &&
    decide (2 ≤ tld.length) && tld.all (·.isAlpha)

/-- `EmailStructureValidationRule` from `informative-validator-rules.ts`:
valid on a null value, otherwise valid iff the value matches the email
pattern. -/
def EmailStructureValidationRule : SynchronousValidationRule where
  getDescription := some "Must be a valid Email address"
  getFeedback := some "This email address is invalid"
  isValid := fun control =>
    match control.value with
    | none => true
    | some s => matchEmailRegex s

/-- `getSyncRules` (identical in both revisions): rules from the optional
rule set (empty when null) followed by the optional directly supplied rule
list (empty when null). -/
def getSyncRules (syncRuleSet : Option SynchronousValidationRuleSet)
    (syncRules : Option (List SynchronousValidationRule)) :
    List SynchronousValidationRule :=
  let fromSet := match syncRuleSet with
    | none => []
    | some s => s.getRuleSet
  let fromList := match syncRules with
    | none => []
    | some l => l
  fromSet ++ fromList

/-- `getAsyncRules` (identical in both revisions). -/
def getAsyncRules (asyncRuleSet : Option AsynchronousValidationRuleSet)
    (asyncRules : Option (List AsynchronousValidationRule)) :
    List AsynchronousValidationRule :=
  let fromSet := match asyncRuleSet with
    | none => []
    | some s => s.getRuleSet
  let fromList := match asyncRules with
    | none => []
    | some l => l
  fromSet ++ fromList

/-- Settlement of `Promise.all` over the dispatched latent operations:
resolves with the boolean results in dispatch order iff every operation
resolves, rejects (`none`) if any operation rejects.  Completion order of
the individual operations is immaterial: the resolved array is indexed by
dispatch position. -/
def promiseAll : List (Except Unit Bool) → Option (List Bool)
  | [] => some []
  | Except.ok b :: rest => (promiseAll rest).map (fun bs => b :: bs)
  | Except.error _ :: _ => none

/-- The generic message pushed by the `catch` handler of both revisions
(spelling kept exactly as in the source). -/
def genericFeedback : String :=
  "An unknown error occured during validation. Validation has failed."

namespace RulesV

/-- The observable outcome of one `validate` call of the newer revision:
the `_valid` flag it stores and the `feedback` array it leaves behind.
The newer revision only ever pushes non-null feedback strings. -/
structure Verdict where
  valid : Bool
  feedback : List String
deriving DecidableEq, Repr

/-- The sync loop of the newer `validate`
(`informative-validator-rules.ts`): each rule's predicate is evaluated
once against the control; a failing rule pushes its feedback when that
feedback is non-null and forces `valid` to false. -/
def syncPhase (control : AbstractControl) :
    List SynchronousValidationRule → Bool × List String
  | [] => (true, [])
  | rule :: rest =>
    let tail := syncPhase control rest
    if rule.isValid control then tail
    else
      match rule.getFeedback with
      | some f => (false, f :: tail.2)
      | none => (false, tail.2)

/-- The `then` handler of the newer `validate`: walk the settled results
in dispatch order; a false result pushes the corresponding rule's feedback
when non-null and forces `valid` to false. -/
def asyncCollect : List AsynchronousValidationRule → List Bool → Bool × List String
  | rule :: rules, result :: results =>
    let tail := asyncCollect rules results
    if result then tail
    else
      match rule.getFeedback with
      | some f => (false, f :: tail.2)
      | none => (false, tail.2)
  | _, _ => (true, [])

/-- `validate` of the newer revision (`informative-validator-rules.ts`):
run the sync rules; when any failed, stop with the collected sync
feedback; otherwise dispatch every async rule and either convert a
rejection into the generic failure verdict or merge the settled results. -/
def validate (syncRules : List SynchronousValidationRule)
    (asyncRules : List AsynchronousValidationRule)
    (control : AbstractControl) : Verdict :=
  let sp := syncPhase control syncRules
  if !sp.1 then
    { valid := sp.1, feedback := sp.2 }
  else
    match promiseAll (asyncRules.map (fun r => r.isValid control)) with
    | none => { valid := false, feedback := [genericFeedback] }
    | some results =>
      let ar := asyncCollect asyncRules results
      { valid := sp.1 && ar.1, feedback := sp.2 ++ ar.2 }

/-- The fields of the newer directive that `shouldDisplayFeedback` reads.
`feedback` is null until the first `validate` call stored a list;
`formControl` is a nullable input. -/
structure DisplayState where
  feedback : Option (List String)
  hideFeedback : Bool
  formControl : Option AbstractControl
  _valid : Bool
deriving DecidableEq, Repr

/-- `shouldDisplayFeedback` of the newer revision: the negated disjunction
of the six suppression conditions, with the control dereferences guarded
by the short-circuiting null check to their left. -/
def shouldDisplayFeedback (st : DisplayState) : Bool :=
  !(st.feedback.isNone || st.hideFeedback || st.formControl.isNone ||
    (match st.formControl with
     | none => false
     | some c => c.untouched) ||
    (match st.formControl with
     | none => false
     | some c => c.status == "DISABLED") ||
    st._valid)

/-- The mutable fields of the newer directive that exist around a
`validate` call: the bound control (with its error-state sink), the
verdict fields `validate` writes, and everything else `validate` must
leave alone.  Element handles are opaque ids. -/
structure BindingState where
  formControl : AbstractControl
  feedback : Option (List String)
  _valid : Bool
  descriptions : Option (List String)
  hideFeedback : Bool
  hideDescriptions : Bool
  _initialised : Bool
  _typingTimer : Option Nat
  _descriptionElement : Option Nat
  _feedbackElement : Option Nat
  syncRuleSet : Option SynchronousValidationRuleSet
  syncRules : Option (List SynchronousValidationRule)
  asyncRuleSet : Option AsynchronousValidationRuleSet
  asyncRules : Option (List AsynchronousValidationRule)

/-- `validate` of the newer revision as a state transformer: the method
reads the rule sources and the bound control and assigns only
`this.feedback` and `this._valid` (composition of the pure core above). -/
def validateS (st : BindingState) : BindingState :=
  let v := validate (getSyncRules st.syncRuleSet st.syncRules)
    (getAsyncRules st.asyncRuleSet st.asyncRules) st.formControl
  { st with feedback := some v.feedback, _valid := v.valid }

end RulesV

namespace DirectiveV

/-- The observable outcome of one `validate` call of the older revision
(`informative-validator.directive.ts`).  This revision pushes
`rule.getFeedback()` and `rule.getDescription()` without null checks, so
its feedback array may hold nulls. -/
structure Verdict where
  valid : Bool
  feedback : List (Option String)
deriving DecidableEq, Repr

/-- The sync loop of the older `validate`: a failing rule pushes its
(possibly null) feedback unconditionally, and the predicate is evaluated
a second time for the AND-accumulation of `valid`. -/
def syncPhase (control : AbstractControl) :
    List SynchronousValidationRule → Bool × List (Option String)
  | [] => (true, [])
  | rule :: rest =>
    let ruleIsValid := rule.isValid control
    let fbHere : List (Option String) :=
      if ruleIsValid then [] else [rule.getFeedback]
    let tail := syncPhase control rest
    (rule.isValid control && tail.1, fbHere ++ tail.2)

/-- The `then` handler of the older `validate`: a false result pushes the
corresponding rule's DESCRIPTION (not its feedback), and `valid`
accumulates by AND. -/
def asyncCollect : List AsynchronousValidationRule → List Bool → Bool × List (Option String)
  | rule :: rules, result :: results =>
    let fbHere : List (Option String) :=
      if result then [] else [rule.getDescription]
    let tail := asyncCollect rules results
    (result && tail.1, fbHere ++ tail.2)
  | _, _ => (true, [])

/-- `validate` of the older revision (`informative-validator.directive.ts`). -/
def validate (syncRules : List SynchronousValidationRule)
    (asyncRules : List AsynchronousValidationRule)
    (control : AbstractControl) : Verdict :=
  let sp := syncPhase control syncRules
  if !sp.1 then
    { valid := sp.1, feedback := sp.2 }
  else
    match promiseAll (asyncRules.map (fun r => r.isValid control)) with
    | none => { valid := false, feedback := [some genericFeedback] }
    | some results =>
      let ar := asyncCollect asyncRules results
      { valid := sp.1 && ar.1, feedback := sp.2 ++ ar.2 }

/-- The fields the older `shouldDisplayFeedback` reads: this revision
additionally requires `_initialised`, dereferences `validationControl`
without a null check, and never looks at the DISABLED status. -/
structure DisplayState where
  feedback : Option (List (Option String))
  _initialised : Bool
  hideFeedback : Bool
  validationControl : AbstractControl
  _valid : Bool
deriving DecidableEq, Repr

/-- `shouldDisplayFeedback` of the older revision, the if-chain of the
source in order. -/
def shouldDisplayFeedback (st : DisplayState) : Bool :=
  if st.feedback.isNone then false
  else if !st._initialised then false
  else if st.hideFeedback then false
  else if st.validationControl.untouched then false
  else if st._valid then false
  else true

/-- The mutable fields of the older directive around a `validate` call. -/
structure BindingState where
  validationControl : AbstractControl
  feedback : Option (List (Option String))
  _valid : Bool
  descriptions : Option (List String)
  hideFeedback : Bool
  hideDescriptions : Bool
  _initialised : Bool
  _descriptionElement : Option Nat
  _feedbackElement : Option Nat
  syncRuleSet : Option SynchronousValidationRuleSet
  syncRules : Option (List SynchronousValidationRule)
  asyncRuleSet : Option AsynchronousValidationRuleSet
  asyncRules : Option (List AsynchronousValidationRule)

/-- `validate` of the older revision as a state transformer: it assigns
only `this.feedback` and `this._valid`. -/
def validateS (st : BindingState) : BindingState :=
  let v := validate (getSyncRules st.syncRuleSet st.syncRules)
    (getAsyncRules st.asyncRuleSet st.asyncRules) st.validationControl
  { st with feedback := some v.feedback, _valid := v.valid }

end DirectiveV

/-! ## Debounce scheduler (`waitForInputFinish` of the newer revision)

The newer directive holds one subscription field `_typingTimer`.
`waitForInputFinish` unsubscribes the previous subscription when present
and subscribes a fresh `Observable.timer(validationDelay)`; the
blur/enter/destroy handlers unsubscribe when a subscription is present.
RxJS supplies the timer semantics: a timer subscription fires its callback
once when the delay elapses unless it was unsubscribed first, and
unsubscribing a settled subscription is inert.  Timers are modelled as an
append-only table of records (the id is the table index) whose status
moves from `pending` to either `fired` (the environment delivers the
elapse event) or `cancelled` (unsubscribe), and then never changes. -/

inductive TimerStatus
  | pending
  | cancelled
  | fired
deriving DecidableEq, Repr

/-- One `Observable.timer` subscription: the requested delay and its
current status. -/
structure TimerRec where
  delay : Nat
  status : TimerStatus
deriving DecidableEq, Repr

/-- The timer-related state of one binding: every subscription ever
created, the `_typingTimer` field (which keeps pointing at its
subscription even after it fired), and `_validationDelay`. -/
structure SchedulerState where
  timers : List TimerRec
  _typingTimer : Option Nat
  validationDelay : Nat
deriving DecidableEq, Repr

/-- Fresh binding: no subscription yet, `_validationDelay` initialised to
1500 (and never written afterwards). -/
def initScheduler : SchedulerState :=
  { timers := [], _typingTimer := none, validationDelay := 1500 }

/-- `Subscription.unsubscribe` on timer `k` (RxJS semantics): a pending
timer becomes cancelled and will never fire; on an already fired or
cancelled subscription it changes nothing. -/
def cancelAt : List TimerRec → Nat → List TimerRec
  | [], _ => []
  | t :: ts, 0 =>
    (if t.status = TimerStatus.pending then { t with status := TimerStatus.cancelled } else t) :: ts
  | t :: ts, Nat.succ n => t :: cancelAt ts n

/-- The environment delivers the elapse event of timer `k`: only a
pending timer fires, and firing settles it for good. -/
def fireAt : List TimerRec → Nat → List TimerRec
  | [], _ => []
  | t :: ts, 0 =>
    (if t.status = TimerStatus.pending then { t with status := TimerStatus.fired } else t) :: ts
  | t :: ts, Nat.succ n => t :: fireAt ts n

/-- `waitForInputFinish` of the newer revision: unsubscribe the previous
subscription when `_typingTimer` is non-null, then subscribe a fresh
timer of `getValidationDelay()` milliseconds and remember it. -/
def waitForInputFinish (st : SchedulerState) : SchedulerState :=
  let timers1 := match st._typingTimer with
    | none => st.timers
    | some k => cancelAt st.timers k
  { st with
    timers := timers1 ++ [{ delay := st.validationDelay, status := TimerStatus.pending }],
    _typingTimer := some timers1.length }

/-- The unsubscribe-when-present pattern of the blur, enter and destroy
handlers: a no-op when `_typingTimer` is null. -/
def cancelPending (st : SchedulerState) : SchedulerState :=
  match st._typingTimer with
  | none => st
  | some k => { st with timers := cancelAt st.timers k }

/-- The events that can reach the timer state of one binding. -/
inductive SchedEvent
  | schedule
  | cancel
  | fire (k : Nat)
deriving DecidableEq, Repr

/-- One event step. -/
def schedStep (st : SchedulerState) : SchedEvent → SchedulerState
  | SchedEvent.schedule => waitForInputFinish st
  | SchedEvent.cancel => cancelPending st
  | SchedEvent.fire k => { st with timers := fireAt st.timers k }

/-- Run a trace of events. -/
def schedRun (st : SchedulerState) : List SchedEvent → SchedulerState
  | [] => st
  | e :: es => schedRun (schedStep st e) es

/-- Status of timer `k` in a timer table, `none` when no such timer was
ever created. -/
def statusAt (ts : List TimerRec) (k : Nat) : Option TimerStatus :=
  (ts.get? k).map (fun t => t.status)

/-- The reachable-state invariant of the timer state machine: the only
pending timer (if any) is the one `_typingTimer` points at, the pointer is
in range, and every timer ever created was created with the constant
1500 ms delay. -/
def SchedInv (st : SchedulerState) : Prop :=
  (∀ i, statusAt st.timers i = some TimerStatus.pending → st._typingTimer = some i)
  ∧ (∀ k, st._typingTimer = some k → k < st.timers.length)
  ∧ (∀ t ∈ st.timers, t.delay = 1500)
  ∧ st.validationDelay = 1500

/-! ## Concrete probe values used in closed evaluations -/

/-- A touched, enabled control holding a non-empty value. -/
def probeControl : AbstractControl :=
  { value := some "x", untouched := false, status := "VALID", errors := none }

/-- A touched, enabled control holding the empty string. -/
def emptyStringControl : AbstractControl :=
  { value := some "", untouched := false, status := "VALID", errors := none }

/-- An untouched control with a null value. -/
def nullValueControl : AbstractControl :=
  { value := none, untouched := true, status := "VALID", errors := none }

/-- A touched control whose status is DISABLED. -/
def disabledControl : AbstractControl :=
  { value := some "x", untouched := false, status := "DISABLED", errors := none }

/-- A sync rule that always passes. -/
def passingSyncRule : SynchronousValidationRule :=
  { getDescription := some "always fine"
    getFeedback := some "never shown"
    isValid := fun _ => true }

/-- A sync rule that always fails and whose feedback is null. -/
def nullFeedbackSyncRule : SynchronousValidationRule :=
  { getDescription := some "probe with null feedback"
    getFeedback := none
    isValid := fun _ => false }

/-- An async rule whose latent operation rejects. -/
def rejectingAsyncRule : AsynchronousValidationRule :=
  { getDescription := some "latent check"
    getFeedback := some "latent check failed"
    isValid := fun _ => Except.error () }

/-- An async rule that resolves true. -/
def asyncTrueRule : AsynchronousValidationRule :=
  { getDescription := some "async rule zero description"
    getFeedback := some "async rule zero feedback"
    isValid := fun _ => Except.ok true }

/-- An async rule that resolves false; its description and feedback texts
differ. -/
def asyncFalseRule1 : AsynchronousValidationRule :=
  { getDescription := some "async rule one description"
    getFeedback := some "async rule one feedback"
    isValid := fun _ => Except.ok false }

/-- A second async rule that resolves false. -/
def asyncFalseRule2 : AsynchronousValidationRule :=
  { getDescription := some "async rule two description"
    getFeedback := some "async rule two feedback"
    isValid := fun _ => Except.ok false }

/-- The display-gating function as the spec words it, written as the
chain of the six suppression conditions in the spec's order: no feedback
computed yet, feedback explicitly hidden, no control bound, control never
touched, control disabled, last verdict valid — otherwise display. -/
def shouldDisplayFeedbackSpec (st : RulesV.DisplayState) : Bool :=
  if st.feedback = none then false
  else if st.hideFeedback then false
  else
    match st.formControl with
    | none => false
    | some c =>
      if c.untouched then false
      else if c.status == "DISABLED" then false
      else if st._valid then false
      else true

/-! ## Characterisation lemmas -/

theorem rulesSyncPhase_fst (control : AbstractControl)
    (rules : List SynchronousValidationRule) :
    (RulesV.syncPhase control rules).1 = rules.all (fun r => r.isValid control) := by
  induction rules with
  | nil => rfl
  | cons rule rest ih =>
    simp only [RulesV.syncPhase, List.all_cons]
    cases h : rule.isValid control with
    | true => simpa [h] using ih
    | false => cases rule.getFeedback <;> simp [h]

theorem rulesSyncPhase_snd (control : AbstractControl)
    (rules : List SynchronousValidationRule) :
    (RulesV.syncPhase control rules).2 =
      (rules.filter (fun r => !(r.isValid control))).filterMap
        (fun r => r.getFeedback) := by
  induction rules with
  | nil => rfl
  | cons rule rest ih =>
    simp only [RulesV.syncPhase, List.filter_cons]
    cases h : rule.isValid control with
    | true => simpa [h] using ih
    | false => cases hf : rule.getFeedback <;> simp [h, hf, List.filterMap_cons, ih]

theorem directiveSyncPhase_fst (control : AbstractControl)
    (rules : List SynchronousValidationRule) :
    (DirectiveV.syncPhase control rules).1 = rules.all (fun r => r.isValid control) := by
  induction rules with
  | nil => rfl
  | cons rule rest ih => simp [DirectiveV.syncPhase, List.all_cons, ih]

theorem directiveSyncPhase_snd (control : AbstractControl)
    (rules : List SynchronousValidationRule) :
    (DirectiveV.syncPhase control rules).2 =
      (rules.filter (fun r => !(r.isValid control))).map
        (fun r => r.getFeedback) := by
  induction rules with
  | nil => rfl
  | cons rule rest ih =>
    simp only [DirectiveV.syncPhase, List.filter_cons]
    cases h : rule.isValid control <;> simp [h, ih]

theorem promiseAll_eq_none {l : List (Except Unit Bool)}
    (h : Except.error () ∈ l) : promiseAll l = none := by
  induction l with
  | nil => cases h
  | cons x rest ih =>
    cases x with
    | error e => rfl
    | ok b =>
      rcases List.mem_cons.mp h with h1 | h2
      · cases h1
      · simp [promiseAll, ih h2]

/-! ## Scheduler lemmas -/

theorem cancelAt_length (ts : List TimerRec) (k : Nat) :
    (cancelAt ts k).length = ts.length := by
  induction ts generalizing k with
  | nil => rfl
  | cons t ts ih => cases k <;> simp [cancelAt, ih]

theorem fireAt_length (ts : List TimerRec) (k : Nat) :
    (fireAt ts k).length = ts.length := by
  induction ts generalizing k with
  | nil => rfl
  | cons t ts ih => cases k <;> simp [fireAt, ih]

theorem statusAt_cancelAt_ne (ts : List TimerRec) {i k : Nat} (h : i ≠ k) :
    statusAt (cancelAt ts k) i = statusAt ts i := by
  induction ts generalizing i k with
  | nil => rfl
  | cons t ts ih =>
    cases k with
    | zero =>
      cases i with
      | zero => exact absurd rfl h
      | succ j => simp [cancelAt, statusAt]
    | succ n =>
      cases i with
      | zero => simp [cancelAt, statusAt]
      | succ j =>
        simp only [cancelAt, statusAt, List.get?_cons_succ]
        exact ih (fun hjk => h (by simp [hjk]))

theorem statusAt_cancelAt_self (ts : List TimerRec) (k : Nat) :
    statusAt (cancelAt ts k) k =
      (statusAt ts k).map
        (fun s => if s = TimerStatus.pending then TimerStatus.cancelled else s) := by
  induction ts generalizing k with
  | nil => rfl
  | cons t ts ih =>
    cases k with
    | zero =>
      by_cases hp : t.status = TimerStatus.pending <;>
        simp [cancelAt, statusAt, hp]
    | succ n => simpa [cancelAt, statusAt] using ih n

theorem statusAt_fireAt_ne (ts : List TimerRec) {i k : Nat} (h : i ≠ k) :
    statusAt (fireAt ts k) i = statusAt ts i := by
  induction ts generalizing i k with
  | nil => rfl
  | cons t ts ih =>
    cases k with
    | zero =>
      cases i with
      | zero => exact absurd rfl h
      | succ j => simp [fireAt, statusAt]
    | succ n =>
      cases i with
      | zero => simp [fireAt, statusAt]
      | succ j =>
        simp only [fireAt, statusAt, List.get?_cons_succ]
        exact ih (fun hjk => h (by simp [hjk]))

theorem statusAt_fireAt_self (ts : List TimerRec) (k : Nat) :
    statusAt (fireAt ts k) k =
      (statusAt ts k).map
        (fun s => if s = TimerStatus.pending then TimerStatus.fired else s) := by
  induction ts generalizing k with
  | nil => rfl
  | cons t ts ih =>
    cases k with
    | zero =>
      by_cases hp : t.status = TimerStatus.pending <;>
        simp [fireAt, statusAt, hp]
    | succ n => simpa [fireAt, statusAt] using ih n

theorem cancelAt_map_delay (ts : List TimerRec) (k : Nat) :
    (cancelAt ts k).map (fun t => t.delay) = ts.map (fun t => t.delay) := by
  induction ts generalizing k with
  | nil => rfl
  | cons t ts ih =>
    cases k with
    | zero => by_cases hp : t.status = TimerStatus.pending <;> simp [cancelAt, hp]
    | succ n => simp [cancelAt, ih]

theorem fireAt_map_delay (ts : List TimerRec) (k : Nat) :
    (fireAt ts k).map (fun t => t.delay) = ts.map (fun t => t.delay) := by
  induction ts generalizing k with
  | nil => rfl
  | cons t ts ih =>
    cases k with
    | zero => by_cases hp : t.status = TimerStatus.pending <;> simp [fireAt, hp]
    | succ n => simp [fireAt, ih]

theorem statusAt_append_left {ts : List TimerRec} {i : Nat} (h : i < ts.length)
    (ts2 : List TimerRec) : statusAt (ts ++ ts2) i = statusAt ts i := by
  induction ts generalizing i with
  | nil => cases h
  | cons t ts ih =>
    cases i with
    | zero => rfl
    | succ j =>
      simpa [statusAt] using ih (Nat.lt_of_succ_lt_succ h)

theorem statusAt_append_self (ts : List TimerRec) (t : TimerRec) :
    statusAt (ts ++ [t]) ts.length = some t.status := by
  induction ts with
  | nil => rfl
  | cons s ts ih => simp only [statusAt, List.cons_append, List.length_cons,
      List.get?_cons_succ] at ih ⊢; exact ih

theorem statusAt_append_gt {ts : List TimerRec} {i : Nat} (t : TimerRec)
    (h : ts.length < i) : statusAt (ts ++ [t]) i = none := by
  induction ts generalizing i with
  | nil =>
    cases i with
    | zero => cases h
    | succ j => simp [statusAt, List.get?]
  | cons s ts ih =>
    cases i with
    | zero => cases h
    | succ j => simpa [statusAt] using ih (Nat.lt_of_succ_lt_succ h)

theorem statusAt_lt_length {ts : List TimerRec} {i : Nat} {s : TimerStatus}
    (h : statusAt ts i = some s) : i < ts.length := by
  by_contra hge
  rw [statusAt, List.get?_eq_none.mpr (Nat.le_of_not_lt hge)] at h
  cases h

theorem fireAt_eq_of_not_pending {ts : List TimerRec} {k : Nat}
    (h : statusAt ts k ≠ some TimerStatus.pending) : fireAt ts k = ts := by
  induction ts generalizing k with
  | nil => rfl
  | cons t ts ih =>
    cases k with
    | zero =>
      have hp : t.status ≠ TimerStatus.pending := by
        intro hs
        exact h (by simp [statusAt, hs])
      simp [fireAt, hp]
    | succ n =>
      have := ih (k := n) (by simpa [statusAt] using h)
      simp [fireAt, this]

theorem schedInv_init : SchedInv initScheduler := by
  refine ⟨?_, ?_, ?_, rfl⟩
  · intro i h
    simp [initScheduler, statusAt] at h
  · intro k h
    simp [initScheduler] at h
  · intro t h
    simp [initScheduler] at h

theorem schedInv_waitForInputFinish {st : SchedulerState} (h : SchedInv st) :
    SchedInv (waitForInputFinish st) := by
  obtain ⟨h1, h2, h3, h4⟩ := h
  cases hT : st._typingTimer with
  | none =>
    have hw : waitForInputFinish st =
        { st with
          timers := st.timers ++
            [{ delay := st.validationDelay, status := TimerStatus.pending }],
          _typingTimer := some st.timers.length } := by
      simp [waitForInputFinish, hT]
    rw [hw]
    refine ⟨?_, ?_, ?_, h4⟩
    · intro i hi
      rcases Nat.lt_trichotomy i st.timers.length with hlt | heq | hgt
      · rw [statusAt_append_left hlt] at hi
        have := h1 i hi
        rw [hT] at this
        cases this
      · simp [heq]
      · rw [statusAt_append_gt _ hgt] at hi
        cases hi
    · intro k hk
      simp only [Option.some.injEq] at hk
      simp [← hk]
    · intro t ht
      rcases List.mem_append.mp ht with hmem | hmem
      · exact h3 t hmem
      · simp only [List.mem_singleton] at hmem
        rw [hmem, h4]
  | some k =>
    have hw : waitForInputFinish st =
        { st with
          timers := cancelAt st.timers k ++
            [{ delay := st.validationDelay, status := TimerStatus.pending }],
          _typingTimer := some (cancelAt st.timers k).length } := by
      simp [waitForInputFinish, hT]
    rw [hw]
    refine ⟨?_, ?_, ?_, h4⟩
    · intro i hi
      rcases Nat.lt_trichotomy i (cancelAt st.timers k).length with hlt | heq | hgt
      · rw [statusAt_append_left hlt] at hi
        by_cases hik : i = k
        · subst hik
          rw [statusAt_cancelAt_self] at hi
          cases hs : statusAt st.timers i with
          | none => rw [hs] at hi; cases hi
          | some s =>
            rw [hs] at hi
            cases s <;> simp at hi
        · rw [statusAt_cancelAt_ne _ hik] at hi
          have := h1 i hi
          rw [hT] at this
          simp only [Option.some.injEq] at this
          exact absurd this.symm hik
      · simp [heq]
      · rw [statusAt_append_gt _ hgt] at hi
        cases hi
    · intro k2 hk2
      simp only [Option.some.injEq] at hk2
      simp [← hk2]
    · intro t ht
      rcases List.mem_append.mp ht with hmem | hmem
      · have hdel : t.delay ∈ (cancelAt st.timers k).map (fun t => t.delay) :=
          List.mem_map_of_mem _ hmem
        rw [cancelAt_map_delay] at hdel
        rcases List.mem_map.mp hdel with ⟨t2, ht2, hd⟩
        rw [← hd]
        exact h3 t2 ht2
      · simp only [List.mem_singleton] at hmem
        rw [hmem, h4]

theorem schedInv_cancelPending {st : SchedulerState} (h : SchedInv st) :
    SchedInv (cancelPending st) := by
  obtain ⟨h1, h2, h3, h4⟩ := h
  cases hT : st._typingTimer with
  | none =>
    have hw : cancelPending st = st := by simp [cancelPending, hT]
    rw [hw]
    exact ⟨h1, h2, h3, h4⟩
  | some k =>
    have hw : cancelPending st = { st with timers := cancelAt st.timers k } := by
      simp [cancelPending, hT]
    rw [hw]
    refine ⟨?_, ?_, ?_, h4⟩
    · intro i hi
      by_cases hik : i = k
      · subst hik
        rw [statusAt_cancelAt_self] at hi
        cases hs : statusAt st.timers i with
        | none => rw [hs] at hi; cases hi
        | some s =>
          rw [hs] at hi
          cases s <;> simp at hi
      · rw [statusAt_cancelAt_ne _ hik] at hi
        exact h1 i hi
    · intro k2 hk2
      rw [cancelAt_length]
      exact h2 k2 hk2
    · intro t ht
      have hdel : t.delay ∈ (cancelAt st.timers k).map (fun t => t.delay) :=
        List.mem_map_of_mem _ ht
      rw [cancelAt_map_delay] at hdel
      rcases List.mem_map.mp hdel with ⟨t2, ht2, hd⟩
      rw [← hd]
      exact h3 t2 ht2

theorem schedInv_fire {st : SchedulerState} (k : Nat) (h : SchedInv st) :
    SchedInv { st with timers := fireAt st.timers k } := by
  obtain ⟨h1, h2, h3, h4⟩ := h
  refine ⟨?_, ?_, ?_, h4⟩
  · intro i hi
    by_cases hik : i = k
    · subst hik
      rw [statusAt_fireAt_self] at hi
      cases hs : statusAt st.timers i with
      | none => rw [hs] at hi; cases hi
      | some s =>
        rw [hs] at hi
        cases s <;> simp at hi
    · rw [statusAt_fireAt_ne _ hik] at hi
      exact h1 i hi
  · intro k2 hk2
    rw [fireAt_length]
    exact h2 k2 hk2
  · intro t ht
    have hdel : t.delay ∈ (fireAt st.timers k).map (fun t => t.delay) :=
      List.mem_map_of_mem _ ht
    rw [fireAt_map_delay] at hdel
    rcases List.mem_map.mp hdel with ⟨t2, ht2, hd⟩
    rw [← hd]
    exact h3 t2 ht2

theorem schedInv_step {st : SchedulerState} (e : SchedEvent) (h : SchedInv st) :
    SchedInv (schedStep st e) := by
  cases e with
  | schedule => exact schedInv_waitForInputFinish h
  | cancel => exact schedInv_cancelPending h
  | fire k => exact schedInv_fire k h

theorem schedInv_run {st : SchedulerState} (tr : List SchedEvent) (h : SchedInv st) :
    SchedInv (schedRun st tr) := by
  induction tr generalizing st with
  | nil => exact h
  | cons e es ih => exact ih (schedInv_step e h)

theorem statusAt_step_stable {st : SchedulerState} (e : SchedEvent) {i : Nat}
    {s : TimerStatus} (hs : statusAt st.timers i = some s)
    (hns : s ≠ TimerStatus.pending) :
    statusAt (schedStep st e).timers i = some s := by
  have hlt : i < st.timers.length := statusAt_lt_length hs
  cases e with
  | fire k =>
    by_cases hik : i = k
    · subst hik
      show statusAt (fireAt st.timers i) i = some s
      rw [statusAt_fireAt_self, hs]
      simp [hns]
    · show statusAt (fireAt st.timers k) i = some s
      rw [statusAt_fireAt_ne _ hik]
      exact hs
  | cancel =>
    cases hT : st._typingTimer with
    | none => simpa [schedStep, cancelPending, hT] using hs
    | some k =>
      have hw : schedStep st SchedEvent.cancel =
          { st with timers := cancelAt st.timers k } := by
        simp [schedStep, cancelPending, hT]
      rw [hw]
      by_cases hik : i = k
      · subst hik
        rw [statusAt_cancelAt_self, hs]
        simp [hns]
      · rw [statusAt_cancelAt_ne _ hik]
        exact hs
  | schedule =>
    cases hT : st._typingTimer with
    | none =>
      have hw : schedStep st SchedEvent.schedule =
          { st with
            timers := st.timers ++
              [{ delay := st.validationDelay, status := TimerStatus.pending }],
            _typingTimer := some st.timers.length } := by
        simp [schedStep, waitForInputFinish, hT]
      rw [hw]
      rw [statusAt_append_left hlt]
      exact hs
    | some k =>
      have hw : schedStep st SchedEvent.schedule =
          { st with
            timers := cancelAt st.timers k ++
              [{ delay := st.validationDelay, status := TimerStatus.pending }],
            _typingTimer := some (cancelAt st.timers k).length } := by
        simp [schedStep, waitForInputFinish, hT]
      rw [hw]
      have hlt2 : i < (cancelAt st.timers k).length := by
        rw [cancelAt_length]; exact hlt
      rw [statusAt_append_left hlt2]
      by_cases hik : i = k
      · subst hik
        rw [statusAt_cancelAt_self, hs]
        simp [hns]
      · rw [statusAt_cancelAt_ne _ hik]
        exact hs

theorem statusAt_run_stable {st : SchedulerState} (tr : List SchedEvent) {i : Nat}
    {s : TimerStatus} (hs : statusAt st.timers i = some s)
    (hns : s ≠ TimerStatus.pending) :
    statusAt (schedRun st tr).timers i = some s := by
  induction tr generalizing st with
  | nil => exact hs
  | cons e es ih => exact ih (statusAt_step_stable e hs hns)

/-! ## Claim theorems -/

/-- C4: for all optional rule lists and rule sets of the same variant,
aggregation yields the set's rules first (in the set's internal order)
followed by the list's rules (in list order); a missing list and a
missing set each contribute the empty sequence, and with both absent the
aggregate is the empty sequence. -/
theorem C4_rule_aggregation :
    (∀ (S : SynchronousValidationRuleSet) (L : List SynchronousValidationRule),
      getSyncRules (some S) (some L) = S.getRuleSet ++ L)
    ∧ (∀ L : List SynchronousValidationRule,
      getSyncRules none (some L) = [] ++ L)
    ∧ (∀ S : SynchronousValidationRuleSet,
      getSyncRules (some S) none = S.getRuleSet ++ [])
    ∧ getSyncRules none none = []
    ∧ (∀ (S : AsynchronousValidationRuleSet) (L : List AsynchronousValidationRule),
      getAsyncRules (some S) (some L) = S.getRuleSet ++ L)
    ∧ (∀ L : List AsynchronousValidationRule,
      getAsyncRules none (some L) = [] ++ L)
    ∧ (∀ S : AsynchronousValidationRuleSet,
      getAsyncRules (some S) none = S.getRuleSet ++ [])
    ∧ getAsyncRules none none = [] :=
  ⟨fun _ _ => rfl, fun _ => rfl, fun _ => rfl, rfl,
   fun _ _ => rfl, fun _ => rfl, fun _ => rfl, rfl⟩

/-- C8: a control configured with only the built-in required rule and the
empty string as value validates to the verdict valid = false with exactly
the one feedback message "You have not provided this item". -/
theorem C8_required_rule_on_empty_string :
    RulesV.validate [RequiredValidationRule] [] emptyStringControl =
      { valid := false, feedback := ["You have not provided this item"] } := by
  decide

/-- C10: `EmailStructureValidationRule.isValid` returns true on every
control with a null value, and on a control holding a string it returns
exactly the email-pattern match of that string (two closed instances of
the matcher are evaluated as a sanity check). -/
theorem C10_email_rule_null_is_valid :
    (∀ c : AbstractControl, c.value = none →
      EmailStructureValidationRule.isValid c = true)
    ∧ (∀ (c : AbstractControl) (s : String), c.value = some s →
      EmailStructureValidationRule.isValid c = matchEmailRegex s)
    ∧ matchEmailRegex "a@b.co" = true
    ∧ matchEmailRegex "not-an-email" = false := by
  refine ⟨?_, ?_, ?_, ?_⟩
  · intro c hc
    simp [EmailStructureValidationRule, hc]
  · intro c s hc
    simp [EmailStructureValidationRule, hc]
  · decide
  · decide

/-- Witness for C10 at a null-valued and at a string-valued control. -/
theorem C10_email_rule_null_is_valid_witness :
    EmailStructureValidationRule.isValid nullValueControl = true
    ∧ EmailStructureValidationRule.isValid probeControl = matchEmailRegex "x" :=
  ⟨C10_email_rule_null_is_valid.1 nullValueControl rfl,
   C10_email_rule_null_is_valid.2.1 probeControl "x" rfl⟩

/-- C9: `validate` (both revisions) produces only the verdict: it leaves
every other binding field unchanged — in particular the bound control with
its error-state flag, and the rendered description/feedback element
handles. -/
theorem C9_validate_has_no_other_effects :
    (∀ st : RulesV.BindingState,
      (RulesV.validateS st).formControl = st.formControl
      ∧ (RulesV.validateS st).formControl.errors = st.formControl.errors
      ∧ (RulesV.validateS st).descriptions = st.descriptions
      ∧ (RulesV.validateS st).hideFeedback = st.hideFeedback
      ∧ (RulesV.validateS st).hideDescriptions = st.hideDescriptions
      ∧ (RulesV.validateS st)._initialised = st._initialised
      ∧ (RulesV.validateS st)._typingTimer = st._typingTimer
      ∧ (RulesV.validateS st)._descriptionElement = st._descriptionElement
      ∧ (RulesV.validateS st)._feedbackElement = st._feedbackElement
      ∧ (RulesV.validateS st).syncRuleSet = st.syncRuleSet
      ∧ (RulesV.validateS st).syncRules = st.syncRules
      ∧ (RulesV.validateS st).asyncRuleSet = st.asyncRuleSet
      ∧ (RulesV.validateS st).asyncRules = st.asyncRules)
    ∧ (∀ st : DirectiveV.BindingState,
      (DirectiveV.validateS st).validationControl = st.validationControl
      ∧ (DirectiveV.validateS st).validationControl.errors = st.validationControl.errors
      ∧ (DirectiveV.validateS st).descriptions = st.descriptions
      ∧ (DirectiveV.validateS st).hideFeedback = st.hideFeedback
      ∧ (DirectiveV.validateS st).hideDescriptions = st.hideDescriptions
      ∧ (DirectiveV.validateS st)._initialised = st._initialised
      ∧ (DirectiveV.validateS st)._descriptionElement = st._descriptionElement
      ∧ (DirectiveV.validateS st)._feedbackElement = st._feedbackElement
      ∧ (DirectiveV.validateS st).syncRuleSet = st.syncRuleSet
      ∧ (DirectiveV.validateS st).syncRules = st.syncRules
      ∧ (DirectiveV.validateS st).asyncRuleSet = st.asyncRuleSet
      ∧ (DirectiveV.validateS st).asyncRules = st.asyncRules) :=
  ⟨fun _ => ⟨rfl, rfl, rfl, rfl, rfl, rfl, rfl, rfl, rfl, rfl, rfl, rfl, rfl⟩,
   fun _ => ⟨rfl, rfl, rfl, rfl, rfl, rfl, rfl, rfl, rfl, rfl, rfl, rfl⟩⟩

/-- C7: the newer revision's `shouldDisplayFeedback` is exactly the
claim's six-condition gate at every state; the older revision diverges:
on a touched, invalid, DISABLED control with computed feedback it returns
true where the claim requires false (it never inspects the disabled
status, dereferences the control without a bound check, and additionally
requires initialisation). -/
theorem C7_shouldDisplayFeedback_divergence :
    (∀ st : RulesV.DisplayState,
      RulesV.shouldDisplayFeedback st = shouldDisplayFeedbackSpec st)
    ∧ DirectiveV.shouldDisplayFeedback
        { feedback := some [some "f"], _initialised := true, hideFeedback := false,
          validationControl := disabledControl, _valid := false } = true
    ∧ RulesV.shouldDisplayFeedback
        { feedback := some ["f"], hideFeedback := false,
          formControl := some disabledControl, _valid := false } = false := by
  refine ⟨?_, by decide, by decide⟩
  intro st
  obtain ⟨fb, hf, fc, v⟩ := st
  cases fb with
  | none =>
    cases fc <;> simp [RulesV.shouldDisplayFeedback, shouldDisplayFeedbackSpec]
  | some l =>
    cases fc with
    | none => simp [RulesV.shouldDisplayFeedback, shouldDisplayFeedbackSpec]
    | some c =>
      cases hf <;> cases hu : c.untouched <;>
        cases hd : (c.status == "DISABLED") <;> cases v <;>
        simp [RulesV.shouldDisplayFeedback, shouldDisplayFeedbackSpec, hu, hd]

/-- C5: the newer revision collects, in declared order, exactly the
non-null feedback of the failing sync rules, and its validity flag is the
conjunction of every predicate; the older revision pushes the feedback of
a failing rule with no null check — on a failing rule with null feedback
it records a null entry where the claim admits none. -/
theorem C5_sync_collection_divergence :
    (∀ (control : AbstractControl) (rules : List SynchronousValidationRule),
      (RulesV.syncPhase control rules).2 =
        (rules.filter (fun r => !(r.isValid control))).filterMap
          (fun r => r.getFeedback))
    ∧ (∀ (control : AbstractControl) (rules : List SynchronousValidationRule),
      (RulesV.syncPhase control rules).1 = rules.all (fun r => r.isValid control))
    ∧ (RulesV.validate [nullFeedbackSyncRule] [] probeControl).feedback = []
    ∧ (DirectiveV.validate [nullFeedbackSyncRule] [] probeControl).feedback = [none] :=
  ⟨fun c rs => rulesSyncPhase_snd c rs,
   fun c rs => rulesSyncPhase_fst c rs,
   by decide, by decide⟩

/-- C3: with all sync rules passing and all async operations settling,
the newer revision returns the AND of the results with the failing async
rules' FEEDBACK texts in declared rule order; the older revision instead
pushes the failing rule's DESCRIPTION text into the feedback list, against
the claim. -/
theorem C3_async_feedback_divergence :
    RulesV.validate [passingSyncRule]
        [asyncTrueRule, asyncFalseRule1, asyncFalseRule2] probeControl =
      { valid := false,
        feedback := ["async rule one feedback", "async rule two feedback"] }
    ∧ RulesV.validate [passingSyncRule] [asyncTrueRule] probeControl =
      { valid := true, feedback := [] }
    ∧ DirectiveV.validate [passingSyncRule] [asyncFalseRule1] probeControl =
      { valid := false, feedback := [some "async rule one description"] } :=
  ⟨by decide, by decide, by decide⟩

/-- C1: when some sync rule fails, both revisions return valid = false
with exactly the collected sync feedback, and the verdict does not depend
on the async rule list at all — no async predicate is invoked and no
async feedback can appear. -/
theorem C1_sync_failure_short_circuit
    (syncRules : List SynchronousValidationRule)
    (asyncRules : List AsynchronousValidationRule)
    (control : AbstractControl)
    (h : ∃ r ∈ syncRules, r.isValid control = false) :
    (RulesV.validate syncRules asyncRules control).valid = false
    ∧ (RulesV.validate syncRules asyncRules control).feedback =
        (syncRules.filter (fun r => !(r.isValid control))).filterMap
          (fun r => r.getFeedback)
    ∧ (∀ asyncRules2, RulesV.validate syncRules asyncRules2 control =
        RulesV.validate syncRules asyncRules control)
    ∧ (DirectiveV.validate syncRules asyncRules control).valid = false
    ∧ (DirectiveV.validate syncRules asyncRules control).feedback =
        (syncRules.filter (fun r => !(r.isValid control))).map
          (fun r => r.getFeedback)
    ∧ (∀ asyncRules2, DirectiveV.validate syncRules asyncRules2 control =
        DirectiveV.validate syncRules asyncRules control) := by
  obtain ⟨r, hr, hrv⟩ := h
  have hall : syncRules.all (fun r => r.isValid control) = false := by
    cases hA : syncRules.all (fun r => r.isValid control) with
    | false => rfl
    | true =>
      have := List.all_eq_true.mp hA r hr
      rw [hrv] at this
      cases this
  have h1 : (RulesV.syncPhase control syncRules).1 = false := by
    rw [rulesSyncPhase_fst, hall]
  have h2 : (DirectiveV.syncPhase control syncRules).1 = false := by
    rw [directiveSyncPhase_fst, hall]
  refine ⟨?_, ?_, ?_, ?_, ?_, ?_⟩
  · simp [RulesV.validate, h1]
  · simp [RulesV.validate, h1, rulesSyncPhase_snd]
  · intro asyncRules2
    simp [RulesV.validate, h1]
  · simp [DirectiveV.validate, h2]
  · simp [DirectiveV.validate, h2, directiveSyncPhase_snd]
  · intro asyncRules2
    simp [DirectiveV.validate, h2]

/-- Witness for C1: the built-in required rule fails on a null value, and
the verdict short-circuits past a rejecting async rule. -/
theorem C1_sync_failure_short_circuit_witness :
    (RulesV.validate [RequiredValidationRule] [rejectingAsyncRule]
      nullValueControl).valid = false
    ∧ (RulesV.validate [RequiredValidationRule] [rejectingAsyncRule]
        nullValueControl).feedback =
        ([RequiredValidationRule].filter
          (fun r => !(r.isValid nullValueControl))).filterMap
          (fun r => r.getFeedback) :=
  ⟨(C1_sync_failure_short_circuit [RequiredValidationRule] [rejectingAsyncRule]
      nullValueControl ⟨RequiredValidationRule, List.mem_singleton.mpr rfl, rfl⟩).1,
   (C1_sync_failure_short_circuit [RequiredValidationRule] [rejectingAsyncRule]
      nullValueControl ⟨RequiredValidationRule, List.mem_singleton.mpr rfl, rfl⟩).2.1⟩

/-- C2: in a pass that reaches the async stage (all sync rules pass) in
which some latent operation rejects, both revisions produce valid = false
with exactly the single generic message and nothing else. -/
theorem C2_async_rejection_generic_verdict
    (syncRules : List SynchronousValidationRule)
    (asyncRules : List AsynchronousValidationRule)
    (control : AbstractControl)
    (hsync : ∀ r ∈ syncRules, r.isValid control = true)
    (herr : ∃ r ∈ asyncRules, r.isValid control = Except.error ()) :
    RulesV.validate syncRules asyncRules control =
      { valid := false, feedback := [genericFeedback] }
    ∧ DirectiveV.validate syncRules asyncRules control =
      { valid := false, feedback := [some genericFeedback] } := by
  have hall : syncRules.all (fun r => r.isValid control) = true :=
    List.all_eq_true.mpr hsync
  have h1 : (RulesV.syncPhase control syncRules).1 = true := by
    rw [rulesSyncPhase_fst, hall]
  have h2 : (DirectiveV.syncPhase control syncRules).1 = true := by
    rw [directiveSyncPhase_fst, hall]
  obtain ⟨r, hr, hre⟩ := herr
  have hmem : Except.error () ∈ asyncRules.map (fun r => r.isValid control) := by
    have hmm := List.mem_map_of_mem (fun r => r.isValid control) hr
    simp only at hmm
    rw [hre] at hmm
    exact hmm
  have hnone := promiseAll_eq_none hmem
  constructor
  · simp [RulesV.validate, h1, hnone]
  · simp [DirectiveV.validate, h2, hnone]

/-- Witness for C2: a passing sync rule and a rejecting async rule. -/
theorem C2_async_rejection_generic_verdict_witness :
    RulesV.validate [passingSyncRule] [rejectingAsyncRule] probeControl =
      { valid := false, feedback := [genericFeedback] } :=
  (C2_async_rejection_generic_verdict [passingSyncRule] [rejectingAsyncRule]
    probeControl
    (by intro r hr; rw [List.mem_singleton] at hr; rw [hr]; rfl)
    ⟨rejectingAsyncRule, List.mem_singleton.mpr rfl, rfl⟩).1

/-- C6: over every event trace from a fresh binding at most one timer is
pending at any instant; unsubscribing with nothing pending is a no-op;
a schedule call cancels the previously pending timer and starts exactly
one fresh pending timer, remembered in `_typingTimer`; every timer ever
started has the default 1500 ms delay; a cancelled timer stays cancelled
forever (it never fires) and a fired timer stays fired (it cannot fire
again); and the fire event of a non-pending timer changes nothing. -/
theorem C6_debounce_invariants :
    (∀ (tr : List SchedEvent) (i j : Nat),
      statusAt (schedRun initScheduler tr).timers i = some TimerStatus.pending →
      statusAt (schedRun initScheduler tr).timers j = some TimerStatus.pending →
      i = j)
    ∧ (∀ st : SchedulerState, st._typingTimer = none → cancelPending st = st)
    ∧ (∀ (st : SchedulerState) (k : Nat), st._typingTimer = some k →
        statusAt st.timers k = some TimerStatus.pending →
        statusAt (waitForInputFinish st).timers k = some TimerStatus.cancelled
        ∧ statusAt (waitForInputFinish st).timers st.timers.length =
            some TimerStatus.pending
        ∧ (waitForInputFinish st)._typingTimer = some st.timers.length)
    ∧ (∀ tr : List SchedEvent, ∀ t ∈ (schedRun initScheduler tr).timers,
        t.delay = 1500)
    ∧ (∀ (st : SchedulerState) (tr : List SchedEvent) (i : Nat),
        statusAt st.timers i = some TimerStatus.cancelled →
        statusAt (schedRun st tr).timers i = some TimerStatus.cancelled)
    ∧ (∀ (st : SchedulerState) (tr : List SchedEvent) (i : Nat),
        statusAt st.timers i = some TimerStatus.fired →
        statusAt (schedRun st tr).timers i = some TimerStatus.fired)
    ∧ (∀ (st : SchedulerState) (k : Nat),
        statusAt st.timers k ≠ some TimerStatus.pending →
        schedStep st (SchedEvent.fire k) = st) := by
  refine ⟨?_, ?_, ?_, ?_, ?_, ?_, ?_⟩
  · intro tr i j hi hj
    obtain ⟨h1, _, _, _⟩ := schedInv_run tr schedInv_init
    exact Option.some.inj ((h1 i hi).symm.trans (h1 j hj))
  · intro st hT
    simp [cancelPending, hT]
  · intro st k hT hp
    have hw : waitForInputFinish st =
        { st with
          timers := cancelAt st.timers k ++
            [{ delay := st.validationDelay, status := TimerStatus.pending }],
          _typingTimer := some (cancelAt st.timers k).length } := by
      simp [waitForInputFinish, hT]
    have hlen : (cancelAt st.timers k).length = st.timers.length :=
      cancelAt_length _ _
    have hklt : k < st.timers.length := statusAt_lt_length hp
    rw [hw]
    refine ⟨?_, ?_, ?_⟩
    · rw [statusAt_append_left (by rw [hlen]; exact hklt)]
      rw [statusAt_cancelAt_self, hp]
      simp
    · rw [← hlen, statusAt_append_self]
    · simp [hlen]
  · intro tr t ht
    obtain ⟨_, _, h3, _⟩ := schedInv_run tr schedInv_init
    exact h3 t ht
  · intro st tr i hc
    exact statusAt_run_stable tr hc (by decide)
  · intro st tr i hf
    exact statusAt_run_stable tr hf (by decide)
  · intro st k hnp
    show { st with timers := fireAt st.timers k } = st
    rw [fireAt_eq_of_not_pending hnp]

/-- Witness for C6 at concrete states and traces: two schedules leave the
single (second) timer pending; cancelling a fresh binding is a no-op;
scheduling over a pending timer cancels it and starts the fresh one;
a cancelled timer survives a fire event unchanged, as does a fired one,
and firing a non-pending timer is a no-op. -/
theorem C6_debounce_invariants_witness :
    (1 : Nat) = 1
    ∧ cancelPending initScheduler = initScheduler
    ∧ statusAt (waitForInputFinish
        { timers := [{ delay := 1500, status := TimerStatus.pending }],
          _typingTimer := some 0, validationDelay := 1500 }).timers 0 =
        some TimerStatus.cancelled
    ∧ (1500 : Nat) = 1500
    ∧ statusAt (schedRun
        { timers := [{ delay := 1500, status := TimerStatus.cancelled }],
          _typingTimer := some 0, validationDelay := 1500 } [SchedEvent.fire 0]).timers 0 =
        some TimerStatus.cancelled
    ∧ statusAt (schedRun
        { timers := [{ delay := 1500, status := TimerStatus.fired }],
          _typingTimer := some 0, validationDelay := 1500 } [SchedEvent.fire 0]).timers 0 =
        some TimerStatus.fired
    ∧ schedStep
        { timers := [{ delay := 1500, status := TimerStatus.fired }],
          _typingTimer := some 0, validationDelay := 1500 } (SchedEvent.fire 0) =
        { timers := [{ delay := 1500, status := TimerStatus.fired }],
          _typingTimer := some 0, validationDelay := 1500 } :=
  ⟨C6_debounce_invariants.1 [SchedEvent.schedule, SchedEvent.schedule] 1 1
      (by decide) (by decide),
   C6_debounce_invariants.2.1 initScheduler rfl,
   (C6_debounce_invariants.2.2.1
      { timers := [{ delay := 1500, status := TimerStatus.pending }],
        _typingTimer := some 0, validationDelay := 1500 } 0 rfl (by decide)).1,
   C6_debounce_invariants.2.2.2.1 [SchedEvent.schedule]
      { delay := 1500, status := TimerStatus.pending } (by decide),
   C6_debounce_invariants.2.2.2.2.1
      { timers := [{ delay := 1500, status := TimerStatus.cancelled }],
        _typingTimer := some 0, validationDelay := 1500 } [SchedEvent.fire 0] 0 (by decide),
   C6_debounce_invariants.2.2.2.2.2.1
      { timers := [{ delay := 1500, status := TimerStatus.fired }],
        _typingTimer := some 0, validationDelay := 1500 } [SchedEvent.fire 0] 0 (by decide),
   C6_debounce_invariants.2.2.2.2.2.2
      { timers := [{ delay := 1500, status := TimerStatus.fired }],
        _typingTimer := some 0, validationDelay := 1500 } 0 (by decide)⟩

end InformativeValidator
